import Mathlib

set_option maxHeartbeats 1000000

/-!
Verification of the wgeasy-api client library (TypeScript) against its
specification.  The development shallowly embeds the relevant source files:

* src/models/Client.ts — the immutable peer record;
* src/models/ClientCollection.ts — the Map-backed query engine
  (filter / search / paginate);
* src/utils/HttpClient.ts — the transport retry loop, modelled over an
  oracle giving the outcome of each attempt;
* src/repositories/ClientRepository.ts — the caching repository, modelled
  as a state machine over an oracle of remote-call replies;
* src/utils/EventEmitter.ts — the synchronous event fan-out;
* src/utils/Validator.ts — input validation.

Wall-clock instants are modelled as integers (millisecond timestamps); the
TS code parses ISO strings into Date objects and only ever compares them
numerically.
-/

/-- A VPN peer record (src/models/Client.ts).  The TS Client constructor is a
field-for-field copy of the IClientData DTO (dates parsed to Date), so the
model identifies the two. -/
structure Client where
  id : String
  name : String
  enabled : Bool
  address : String
  publicKey : String
  createdAt : Int
  updatedAt : Int
  downloadableConfig : Bool
  persistentKeepalive : String
  latestHandshakeAt : Option Int
  transferRx : Nat
  transferTx : Nat
  deriving DecidableEq, Repr

/-- Client.isOnline: a peer is online when its last handshake is strictly
within the last three minutes of the given current instant. -/
def Client.isOnline (c : Client) (now : Int) : Bool :=
  match c.latestHandshakeAt with
  | none => false
  | some h => decide (now - 3 * 60 * 1000 < h)

/-- Client.totalTransfer. -/
def Client.totalTransfer (c : Client) : Nat :=
  c.transferRx + c.transferTx

/-- JS String.prototype.includes — substring containment. -/
def jsIncludes (s q : String) : Bool :=
  decide (q.data <:+: s.data)

/-- JS String.prototype.toLowerCase, as a map over the character list (the
names involved are ASCII). -/
def strLower (s : String) : String :=
  ⟨s.data.map Char.toLower⟩

/-- JS String.prototype.trim: strip whitespace from both ends, as dropWhile
over the character list. -/
def strTrim (s : String) : String :=
  ⟨((s.data.dropWhile Char.isWhitespace).reverse.dropWhile Char.isWhitespace).reverse⟩

/-- One step of JS Map construction: inserting an entry whose key already
exists overwrites the stored value in place (keeping the first-insertion
position); a fresh key is appended at the end. -/
def mapInsert (acc : List Client) (c : Client) : List Client :=
  if acc.any (fun x => decide (x.id = c.id)) then
    acc.map (fun x => if x.id = c.id then c else x)
  else acc ++ [c]

/-- The Map built by the ClientCollection constructor from an entry list of
(c.id, c) pairs — insertion-ordered, id-keyed. -/
def mapOfList (cs : List Client) : List Client :=
  cs.foldl mapInsert []

/-- src/models/ClientCollection.ts: a collection backed by a Map from id to
Client, here the Map's entry list in iteration order. -/
structure ClientCollection where
  clients : List Client
  deriving DecidableEq, Repr

/-- The TS constructor new ClientCollection(clients). -/
def ClientCollection.ofList (cs : List Client) : ClientCollection :=
  ⟨mapOfList cs⟩

/-- ClientCollection.fromRawData — maps new Client(d) over the raw data (the
identity in this model) and builds the collection. -/
def ClientCollection.fromRawData (d : List Client) : ClientCollection :=
  .ofList d

/-- ClientCollection.size. -/
def ClientCollection.size (c : ClientCollection) : Nat :=
  c.clients.length

/-- ClientCollection.toArray — Map values in iteration order. -/
def ClientCollection.toArray (c : ClientCollection) : List Client :=
  c.clients

/-- ClientCollection.get — Map lookup by id. -/
def ClientCollection.get (c : ClientCollection) (id : String) : Option Client :=
  c.clients.find? (fun x => decide (x.id = id))

/-- ClientCollection.filter — rebuilds a collection from the filtered array. -/
def ClientCollection.filter (c : ClientCollection) (p : Client → Bool) : ClientCollection :=
  .ofList (c.toArray.filter p)

/-- The filter criteria of IClientFilter (src/types/index.ts); absent fields
are undefined. -/
structure IClientFilter where
  enabled : Option Bool := none
  nameContains : Option String := none
  createdAfter : Option Int := none
  createdBefore : Option Int := none
  hasRecentHandshake : Option Bool := none
  minTransferRx : Option Nat := none
  minTransferTx : Option Nat := none
  deriving DecidableEq, Repr

/-- A defined-and-violated test: filters.field is not undefined and the
violation condition p holds for its value.  (Encodes the guards of the
filterBy early-return chain.) -/
def optCheck {α : Type} (o : Option α) (p : α → Bool) : Bool :=
  match o with
  | some a => p a
  | none => false

/-- The predicate of ClientCollection.filterBy, mirroring its early-return
chain.  JS truthiness notes: nameContains is tested truthily, so an empty
string is skipped; createdAfter/createdBefore are Date objects, truthy
whenever present; enabled and the min-transfer bounds are compared against
undefined explicitly. -/
def filterByPred (now : Int) (f : IClientFilter) (c : Client) : Bool :=
  if optCheck f.enabled (fun e => decide (c.enabled ≠ e)) then false
  else if optCheck f.nameContains
      (fun q => decide (q ≠ "") && !(jsIncludes (strLower c.name) (strLower q))) then false
  else if optCheck f.createdAfter (fun t => decide (c.createdAt < t)) then false
  else if optCheck f.createdBefore (fun t => decide (t < c.createdAt)) then false
  else if optCheck f.hasRecentHandshake (fun b => decide (b ≠ c.isOnline now)) then false
  else if optCheck f.minTransferRx (fun m => decide (c.transferRx < m)) then false
  else if optCheck f.minTransferTx (fun m => decide (c.transferTx < m)) then false
  else true

/-- ClientCollection.filterBy. -/
def ClientCollection.filterBy (c : ClientCollection) (now : Int) (f : IClientFilter) :
    ClientCollection :=
  c.filter (filterByPred now f)

/-- ClientCollection.search: case-insensitive on name, case-sensitive on
address and public key. -/
def ClientCollection.search (c : ClientCollection) (query : String) : ClientCollection :=
  c.filter (fun x =>
    jsIncludes (strLower x.name) (strLower query) ||
    jsIncludes x.address query ||
    jsIncludes x.publicKey query)

/-- ClientCollection.findByName — first case-insensitive exact name match. -/
def ClientCollection.findByName (c : ClientCollection) (name : String) : Option Client :=
  c.toArray.find? (fun x => decide (strLower x.name = strLower name))

/-- The result shape of ClientCollection.paginate (IPaginatedResult). -/
structure IPaginatedResult where
  items : List Client
  total : Nat
  page : Nat
  limit : Nat
  totalPages : Nat
  hasNext : Bool
  hasPrev : Bool
  deriving DecidableEq, Repr

/-- ClientCollection.paginate.  Math.ceil(total/limit) equals
(total + limit - 1) / limit in natural division for limit > 0 (the claims
only concern limit > 0); Array.slice(offset, offset + limit) is
drop-then-take for the non-negative offsets a 1-indexed page produces. -/
def ClientCollection.paginate (c : ClientCollection) (page limit : Nat) : IPaginatedResult :=
  let total := c.size
  let totalPages := (total + limit - 1) / limit
  let offset := (page - 1) * limit
  { items := (c.toArray.drop offset).take limit
    total := total
    page := page
    limit := limit
    totalPages := totalPages
    hasNext := decide (page < totalPages)
    hasPrev := decide (1 < page) }

/-! ### Filter semantics (spec side) -/

/-- Spec-side reading of filterBy: a record satisfies every supplied
criterion (conjunctive AND semantics).  A criterion is supplied when the
field is defined — and, for nameContains, truthy (non-empty). -/
def SatisfiesAllCriteria (now : Int) (f : IClientFilter) (c : Client) : Prop :=
  (∀ e, f.enabled = some e → c.enabled = e) ∧
  (∀ q, f.nameContains = some q → q ≠ "" → jsIncludes (strLower c.name) (strLower q) = true) ∧
  (∀ t, f.createdAfter = some t → t ≤ c.createdAt) ∧
  (∀ t, f.createdBefore = some t → c.createdAt ≤ t) ∧
  (∀ b, f.hasRecentHandshake = some b → c.isOnline now = b) ∧
  (∀ m, f.minTransferRx = some m → m ≤ c.transferRx) ∧
  (∀ m, f.minTransferTx = some m → m ≤ c.transferTx)

/-! ### Transport — HttpClient.request (src/utils/HttpClient.ts)

The retry loop is modelled over an oracle att giving, for each 1-indexed
attempt number, what that attempt observes: the fetch promise rejecting with
a generic network error, rejecting with AbortError (the timeout fired), or
resolving to a response with a status, an optional parsed retry-after
header, and an optional parsed body. -/

/-- Outcome of one fetch attempt.  In resp, retryAfter models the parsed
numeric retry-after header when the server supplied one, and body the
payload the content-type-driven parsing produces. -/
inductive AttemptOutcome (α : Type) where
  | fetchError
  | abortError
  | resp (status : Nat) (retryAfter : Option Nat) (body : Option α)
  deriving DecidableEq, Repr

/-- The error recorded in lastError by a retriable failed attempt. -/
inductive TErr where
  | server (status : Nat)
  | fetchFail
  deriving DecidableEq, Repr

/-- The IApiResponse shape returned on a non-thrown completion. -/
structure IApiResponse (α : Type) where
  success : Bool
  data : Option α
  statusCode : Nat
  deriving DecidableEq, Repr

/-- How HttpClient.request finishes: a returned IApiResponse, or one of the
thrown exceptions. -/
inductive HttpResult (α : Type) where
  | success (r : IApiResponse α)
  | unauthorized
  | rateLimit (retryAfter : Nat)
  | timeout (ms : Nat)
  | network (lastError : Option TErr)
  deriving DecidableEq, Repr

/-- Observable run of request: final result, total backoff delay awaited,
and number of fetch attempts performed. -/
structure RunResult (α : Type) where
  result : HttpResult α
  delay : Nat
  attempts : Nat
  deriving DecidableEq, Repr

/-- The body of the for-loop of HttpClient.request, from the current
1-indexed attempt with the given remaining iterations (the loop runs
attempt = 1..retryAttempts) and accumulated lastError.  401 and 429 are
rethrown at once; AbortError becomes TimeoutException at once; any other
failure (5xx ServerException or a fetch rejection) falls to the retry path,
which awaits retryDelay * attempt when further attempts remain; falling out
of the loop raises NetworkException wrapping lastError. -/
def requestGo {α : Type} (att : Nat → AttemptOutcome α) (retryAttempts retryDelay timeout : Nat) :
    Nat → Nat → Option TErr → RunResult α
  | _, 0, lastError => ⟨.network lastError, 0, 0⟩
  | attempt, rem + 1, _ =>
    match att attempt with
    | .resp status retryAfter body =>
      if status = 401 then ⟨.unauthorized, 0, 1⟩
      else if status = 429 then ⟨.rateLimit (retryAfter.getD 60), 0, 1⟩
      else if 500 ≤ status then
        let d := if attempt < retryAttempts then retryDelay * attempt else 0
        let rest := requestGo att retryAttempts retryDelay timeout (attempt + 1) rem
          (some (.server status))
        ⟨rest.result, d + rest.delay, 1 + rest.attempts⟩
      else
        ⟨.success ⟨decide (200 ≤ status ∧ status < 300), body, status⟩, 0, 1⟩
    | .abortError => ⟨.timeout timeout, 0, 1⟩
    | .fetchError =>
      let d := if attempt < retryAttempts then retryDelay * attempt else 0
      let rest := requestGo att retryAttempts retryDelay timeout (attempt + 1) rem
        (some .fetchFail)
      ⟨rest.result, d + rest.delay, 1 + rest.attempts⟩

/-- HttpClient.request: run the loop from attempt 1 with lastError = null. -/
def HttpClient.request {α : Type} (att : Nat → AttemptOutcome α)
    (retryAttempts retryDelay timeout : Nat) : RunResult α :=
  requestGo att retryAttempts retryDelay timeout 1 retryAttempts none

/-- An attempt outcome that takes the retry path: a fetch rejection or a 5xx
response (neither 401, nor 429, nor a timeout abort). -/
def RetriableB {α : Type} : AttemptOutcome α → Bool
  | .fetchError => true
  | .abortError => false
  | .resp status _ _ => decide (500 ≤ status)

/-- The lastError a retriable outcome records. -/
def errOf {α : Type} : AttemptOutcome α → TErr
  | .resp status _ _ => .server status
  | _ => .fetchFail

/-- Oracle for the C4 counterexample: attempt 1 times out; attempt 2 would
succeed with a 200. -/
def attTimeoutThen200 : Nat → AttemptOutcome Unit :=
  fun n => if n = 1 then .abortError else .resp 200 none none

/-! ### Repository — ClientRepository (src/repositories/ClientRepository.ts)

The repository is a state machine: its state holds the cache fields and a
counter of HTTP calls issued so far.  The remote service is an oracle
mapping the call index to that call's outcome: the transport throwing, or
resolving to an IApiResponse whose parsed body is a client list (the GET
collection endpoint), a single client (the update endpoints), or absent. -/

/-- One remote reply, as the repository observes it. -/
inductive RemoteReply where
  | thrown
  | reply (success : Bool) (list : Option (List Client)) (item : Option Client)
  deriving DecidableEq, Repr

/-- The remote service, one reply per issued call, in call order. -/
abbrev Remote := Nat → RemoteReply

/-- The mutable fields of ClientRepository plus the call counter. -/
structure RepoState where
  cache : Option ClientCollection
  cacheTimestamp : Option Int
  calls : Nat
  deriving DecidableEq, Repr

/-- The errors the repository surfaces. -/
inductive RepoError where
  | validationErr (field : String)
  | transport
  | createFailed
  | createdNotFound (name : String)
  | clientNotFound (id : String)
  deriving DecidableEq, Repr

/-- Validator.validateId: truthy (non-empty) and not blank after trim. -/
def validId (id : String) : Bool :=
  !(decide (id = "")) && !(decide ((strTrim id).length = 0))

/-- Validator.validateClientName: truthy, trimmed length within 1..64, and
the trimmed name matches the alphanumeric/underscore/hyphen regex. -/
def validClientName (name : String) : Bool :=
  !(decide (name = "")) &&
  decide (1 ≤ (strTrim name).length) && decide ((strTrim name).length ≤ 64) &&
  (strTrim name).data.all (fun ch => ch.isAlphanum || decide (ch = '_') || decide (ch = '-'))

/-- One group of an address: 1..hi characters, all accepted by isOk. -/
def addrGroup (g : String) (hi : Nat) (isOk : Char → Bool) : Bool :=
  decide (1 ≤ g.length) && decide (g.length ≤ hi) && g.data.all isOk

/-- A hexadecimal digit as in the ipv6 regex character class. -/
def isHexDigitChar (ch : Char) : Bool :=
  ch.isDigit || (decide ('a' ≤ ch) && decide (ch ≤ 'f')) ||
    (decide ('A' ≤ ch) && decide (ch ≤ 'F'))

/-- Validator.validateIPAddress: the ipv4 regex (four 1-3-digit groups with
an optional 1-2-digit prefix length) or the ipv6 regex (eight 1-4-hex-digit
groups with an optional 1-3-digit prefix length). -/
def validIPAddress (address : String) : Bool :=
  let parts := address.splitOn "/"
  let core := parts.headD ""
  let suffixOk := fun (hi : Nat) =>
    match parts with
    | [_] => true
    | [_, sfx] => addrGroup sfx hi Char.isDigit
    | _ => false
  let g4 := core.splitOn "."
  let ipv4 := decide (g4.length = 4) &&
    g4.all (fun g => addrGroup g 3 Char.isDigit) && suffixOk 2
  let g6 := core.splitOn ":"
  let ipv6 := decide (g6.length = 8) &&
    g6.all (fun g => addrGroup g 4 isHexDigitChar) && suffixOk 3
  ipv4 || ipv6

/-- ClientRepository.isCacheValid. -/
def isCacheValid (ttl : Nat) (now : Int) (s : RepoState) : Bool :=
  match s.cache, s.cacheTimestamp with
  | some _, some ts => decide (now - ts < (ttl : Int))
  | _, _ => false

/-- ClientRepository.findAll: serve the valid cache unless forced, else
fetch; a usable successful body replaces the cache and timestamp, anything
else yields an empty collection leaving cache and timestamp untouched. -/
def ClientRepository.findAll (remote : Remote) (ttl : Nat) (now : Int) (forceRefresh : Bool)
    (s : RepoState) : Except RepoError (ClientCollection × RepoState) :=
  if !forceRefresh && isCacheValid ttl now s then
    .ok (s.cache.getD ⟨[]⟩, s)
  else
    match remote s.calls with
    | .thrown => .error .transport
    | .reply success list _ =>
      let s1 : RepoState := { s with calls := s.calls + 1 }
      match success, list with
      | true, some d =>
        let c := ClientCollection.fromRawData d
        .ok (c, { s1 with cache := some c, cacheTimestamp := some now })
      | _, _ => .ok (⟨[]⟩, s1)

/-- ClientRepository.findById: validate, read through findAll, raise
ClientNotFoundException when the id is absent. -/
def ClientRepository.findById (remote : Remote) (ttl : Nat) (now : Int) (id : String)
    (s : RepoState) : Except RepoError (Client × RepoState) :=
  if !(validId id) then .error (.validationErr "id")
  else
    match ClientRepository.findAll remote ttl now false s with
    | .error e => .error e
    | .ok (clients, s1) =>
      match clients.get id with
      | none => .error (.clientNotFound id)
      | some c => .ok (c, s1)

/-- ClientRepository.create: validate, POST, invalidate the cache, then
force a full refetch and locate the created record by scanning the new
snapshot from the end backward for a case-insensitive exact name match;
no match is an error although the POST succeeded. -/
def ClientRepository.create (remote : Remote) (ttl : Nat) (now : Int) (name : String)
    (s : RepoState) : Except RepoError (Client × RepoState) :=
  if !(validClientName name) then .error (.validationErr "name")
  else
    match remote s.calls with
    | .thrown => .error .transport
    | .reply success _ _ =>
      if !success then .error .createFailed
      else
        match ClientRepository.findAll remote ttl now true
            { cache := none, cacheTimestamp := none, calls := s.calls + 1 } with
        | .error e => .error e
        | .ok (clients, s2) =>
          match clients.toArray.reverse.find?
              (fun c => decide (strLower c.name = strLower name)) with
          | none => .error (.createdNotFound name)
          | some c => .ok (c, s2)

/-- ClientRepository.delete: validate, DELETE (result unchecked), then
invalidate the cache. -/
def ClientRepository.delete (remote : Remote) (id : String) (s : RepoState) :
    Except RepoError (Unit × RepoState) :=
  if !(validId id) then .error (.validationErr "id")
  else
    match remote s.calls with
    | .thrown => .error .transport
    | .reply _ _ _ =>
      .ok ((), { cache := none, cacheTimestamp := none, calls := s.calls + 1 })

/-- The shared tail of updateName / updateAddress / enable / disable after
their validations: issue the remote call, invalidate the cache, return the
record the response carried, else fall back to findById. -/
def updateCommon (remote : Remote) (ttl : Nat) (now : Int) (id : String) (s : RepoState) :
    Except RepoError (Client × RepoState) :=
  match remote s.calls with
  | .thrown => .error .transport
  | .reply success _ item =>
    match success, item with
    | true, some d =>
      .ok (d, { cache := none, cacheTimestamp := none, calls := s.calls + 1 })
    | _, _ =>
      ClientRepository.findById remote ttl now id
        { cache := none, cacheTimestamp := none, calls := s.calls + 1 }

/-- ClientRepository.updateName. -/
def ClientRepository.updateName (remote : Remote) (ttl : Nat) (now : Int) (id name : String)
    (s : RepoState) : Except RepoError (Client × RepoState) :=
  if !(validId id) then .error (.validationErr "id")
  else if !(validClientName name) then .error (.validationErr "name")
  else updateCommon remote ttl now id s

/-- ClientRepository.updateAddress. -/
def ClientRepository.updateAddress (remote : Remote) (ttl : Nat) (now : Int) (id address : String)
    (s : RepoState) : Except RepoError (Client × RepoState) :=
  if !(validId id) then .error (.validationErr "id")
  else if !(validIPAddress address) then .error (.validationErr "address")
  else updateCommon remote ttl now id s

/-- ClientRepository.enable. -/
def ClientRepository.enable (remote : Remote) (ttl : Nat) (now : Int) (id : String)
    (s : RepoState) : Except RepoError (Client × RepoState) :=
  if !(validId id) then .error (.validationErr "id")
  else updateCommon remote ttl now id s

/-- ClientRepository.disable. -/
def ClientRepository.disable (remote : Remote) (ttl : Nat) (now : Int) (id : String)
    (s : RepoState) : Except RepoError (Client × RepoState) :=
  if !(validId id) then .error (.validationErr "id")
  else updateCommon remote ttl now id s

/-- The collection C was produced by ClientCollection.fromRawData from a
successful usable remote reply issued at some call index in [lo, hi). -/
def FetchedDuring (remote : Remote) (lo hi : Nat) (C : ClientCollection) : Prop :=
  ∃ i, lo ≤ i ∧ i < hi ∧
    ∃ d item, remote i = .reply true (some d) item ∧ C = ClientCollection.fromRawData d

/-- Read-after-write coherence of a mutation carrying pre-state s to
post-state s2: at least one remote call was issued; any surviving cache
stems from a fetch issued during the mutation; and the next findAll yields
either data fetched at-or-after the start of the mutation or the empty
collection of a failed refetch — never the pre-mutation cached snapshot. -/
def MutationCoherent (remote : Remote) (ttl : Nat) (s s2 : RepoState) : Prop :=
  s.calls < s2.calls ∧
  (s2.cache = none ∨
    ∃ C, s2.cache = some C ∧ FetchedDuring remote s.calls s2.calls C) ∧
  (∀ now2 force C s3, ClientRepository.findAll remote ttl now2 force s2 = .ok (C, s3) →
    FetchedDuring remote s.calls s3.calls C ∨ C = ⟨[]⟩)

/-! ### EventEmitter (src/utils/EventEmitter.ts) -/

/-- The EventType union of src/types/index.ts. -/
inductive EventType where
  | clientCreated
  | clientDeleted
  | clientUpdated
  | clientEnabled
  | clientDisabled
  | authLogin
  | authLogout
  | errorEvent
  deriving DecidableEq, Repr

/-- Handlers are identified abstractly; a behavior oracle says whether a
handler invocation on the emitted payload throws. -/
abbrev HandlerId := Nat

/-- What invoking a handler does: return normally or throw. -/
inductive HandlerOutcome where
  | ok
  | throws
  deriving DecidableEq, Repr

/-- The handler registry: the Map of handler Sets keyed by event kind, each
Set in insertion order. -/
def HandlerRegistry := EventType → List HandlerId

/-- Invoking one handler, as the try block observes it. -/
def tryHandler (behavior : HandlerId → HandlerOutcome) (h : HandlerId) : Except Unit Unit :=
  match behavior h with
  | .throws => .error ()
  | .ok => .ok ()

/-- The observable trace of one emit call: every handler invoked, in order,
and the handlers whose exception was caught and logged. -/
structure EmitResult where
  invoked : List HandlerId
  logged : List HandlerId
  deriving DecidableEq, Repr

/-- The forEach body of EventEmitter.emit: invoke each handler inside
try/catch — a thrown exception is logged and iteration continues with the
next handler. -/
def emitGo (behavior : HandlerId → HandlerOutcome) : List HandlerId → EmitResult
  | [] => ⟨[], []⟩
  | h :: rest =>
    match tryHandler behavior h with
    | .ok _ =>
      let r := emitGo behavior rest
      ⟨h :: r.invoked, r.logged⟩
    | .error _ =>
      let r := emitGo behavior rest
      ⟨h :: r.invoked, h :: r.logged⟩

/-- EventEmitter.emit: run every handler registered for the kind. -/
def EventEmitter.emit (behavior : HandlerId → HandlerOutcome)
    (handlers : HandlerRegistry) (ev : EventType) : EmitResult :=
  emitGo behavior (handlers ev)

/-! ### Concrete sample data for evaluated runs -/

/-- A concrete peer record. -/
def devClient : Client :=
  { id := "c1", name := "dev-1", enabled := true, address := "10.8.0.2",
    publicKey := "pkAAA", createdAt := 0, updatedAt := 0, downloadableConfig := true,
    persistentKeepalive := "25", latestHandshakeAt := none,
    transferRx := 0, transferTx := 0 }

/-- A second concrete peer record. -/
def devClient2 : Client :=
  { id := "c2", name := "office", enabled := false, address := "10.8.0.3",
    publicKey := "pkBBB", createdAt := 10, updatedAt := 10, downloadableConfig := true,
    persistentKeepalive := "25", latestHandshakeAt := some 5,
    transferRx := 7, transferTx := 3 }

/-- A third concrete peer record. -/
def devClient3 : Client :=
  { id := "c3", name := "dev-2", enabled := true, address := "10.8.0.4",
    publicKey := "pkCCC", createdAt := 20, updatedAt := 20, downloadableConfig := true,
    persistentKeepalive := "25", latestHandshakeAt := some 15,
    transferRx := 1, transferTx := 9 }

/-- A concrete three-record collection with distinct ids. -/
def collW : ClientCollection := ⟨[devClient, devClient2, devClient3]⟩

/-- A concrete filter: enabled records only. -/
def filterW : IClientFilter := { enabled := some true }

/-- Remote oracle for concrete create runs: call 0 is the POST, which
acknowledges success without a body; every later call is the collection
fetch returning the created record. -/
def remoteCreateOk : Remote := fun i =>
  if i = 0 then .reply true none none
  else .reply true (some [devClient]) none

/-- Remote oracle whose every reply is an unusable failure. -/
def remoteFail : Remote := fun _ => .reply false none none

/-- Transport oracle: every attempt observes a 401 response. -/
def att401 : Nat → AttemptOutcome Unit := fun _ => .resp 401 none none

/-- Transport oracle: every attempt observes a 429 response with a
retry-after of 120. -/
def att429 : Nat → AttemptOutcome Unit := fun _ => .resp 429 (some 120) none

/-- Transport oracle: attempts 1 and 2 observe a 500, attempt 3 a 200. -/
def att5xxThen200 : Nat → AttemptOutcome Unit :=
  fun n => if n ≤ 2 then .resp 500 none none else .resp 200 none (some ())

/-! ## Theorems -/

/-! ### Map-semantics lemmas -/

theorem mem_mapInsert (acc : List Client) (c x : Client) :
    x ∈ mapInsert acc c → x ∈ acc ∨ x = c := by
  unfold mapInsert
  split
  · intro hx
    obtain ⟨y, hy, hyx⟩ := List.mem_map.mp hx
    by_cases h : y.id = c.id
    · rw [if_pos h] at hyx
      exact Or.inr hyx.symm
    · rw [if_neg h] at hyx
      exact Or.inl (hyx ▸ hy)
  · intro hx
    rcases List.mem_append.mp hx with h | h
    · exact Or.inl h
    · exact Or.inr (by simpa using h)

theorem mem_of_mem_foldl_mapInsert (l : List Client) :
    ∀ acc x, x ∈ l.foldl mapInsert acc → x ∈ acc ∨ x ∈ l := by
  induction l with
  | nil => intro acc x h; exact Or.inl h
  | cons c rest ih =>
    intro acc x h
    rcases ih (mapInsert acc c) x h with h1 | h1
    · rcases mem_mapInsert acc c x h1 with h2 | h2
      · exact Or.inl h2
      · exact Or.inr (by simp [h2])
    · exact Or.inr (List.mem_cons_of_mem _ h1)

theorem mem_of_mem_mapOfList (l : List Client) (x : Client) :
    x ∈ mapOfList l → x ∈ l := by
  intro h
  rcases mem_of_mem_foldl_mapInsert l [] x h with h1 | h1
  · simp at h1
  · exact h1

theorem foldl_mapInsert_of_nodup (l : List Client) :
    ∀ acc, ((acc ++ l).map Client.id).Nodup → l.foldl mapInsert acc = acc ++ l := by
  induction l with
  | nil => intro acc _; simp
  | cons c rest ih =>
    intro acc h
    have hnot : c.id ∉ acc.map Client.id := by
      rw [List.map_append] at h
      have hdisj := (List.nodup_append.mp h).2.2
      intro hmem
      exact hdisj hmem (by simp)
    have hins : mapInsert acc c = acc ++ [c] := by
      unfold mapInsert
      rw [if_neg]
      intro hany
      obtain ⟨y, hy, hyid⟩ := List.any_eq_true.mp hany
      exact hnot (List.mem_map.mpr ⟨y, hy, of_decide_eq_true hyid⟩)
    rw [List.foldl_cons, hins, ih (acc ++ [c]) (by simpa using h)]
    simp

theorem mapOfList_eq_self (l : List Client) (h : (l.map Client.id).Nodup) :
    mapOfList l = l := by
  have := foldl_mapInsert_of_nodup l [] (by simpa using h)
  simpa [mapOfList] using this

theorem mem_filter_toArray (c : ClientCollection) (p : Client → Bool) (x : Client)
    (hnodup : (c.toArray.map Client.id).Nodup) :
    x ∈ (c.filter p).toArray ↔ x ∈ c.toArray ∧ p x := by
  unfold ClientCollection.filter ClientCollection.ofList ClientCollection.toArray at *
  rw [mapOfList_eq_self]
  · simp [List.mem_filter]
  · exact ((List.filter_sublist _).map Client.id).nodup hnodup

theorem iteChain_eq (b1 b2 b3 b4 b5 b6 b7 : Bool) :
    (if b1 then false else if b2 then false else if b3 then false
     else if b4 then false else if b5 then false else if b6 then false
     else if b7 then false else true) =
      (!b1 && !b2 && !b3 && !b4 && !b5 && !b6 && !b7) := by
  cases b1 <;> cases b2 <;> cases b3 <;> cases b4 <;> cases b5 <;> cases b6 <;> cases b7 <;> rfl

theorem optCheck_false_iff {α : Type} (o : Option α) (p : α → Bool) :
    optCheck o p = false ↔ ∀ a, o = some a → p a = false := by
  cases o <;> simp [optCheck]

theorem crit_ne_bool (o : Option Bool) (b : Bool) :
    (∀ e, o = some e → (decide (b ≠ e)) = false) ↔ ∀ e, o = some e → b = e := by
  cases o <;> simp

theorem crit_name_contains (o : Option String) (g : String → Bool) :
    (∀ q, o = some q → ((decide (q ≠ "")) && !(g q)) = false) ↔
      ∀ q, o = some q → q ≠ "" → g q = true := by
  cases o with
  | none => simp
  | some q =>
    simp only [Option.some.injEq, forall_eq']
    cases hgq : g q <;> by_cases hq : q = "" <;> simp [hq, hgq]

theorem crit_lt_le {α : Type} [LinearOrder α] (o : Option α) (x : α) :
    (∀ t, o = some t → (decide (x < t)) = false) ↔ ∀ t, o = some t → t ≤ x := by
  cases o <;> simp

theorem crit_gt_le {α : Type} [LinearOrder α] (o : Option α) (x : α) :
    (∀ t, o = some t → (decide (t < x)) = false) ↔ ∀ t, o = some t → x ≤ t := by
  cases o <;> simp

theorem crit_online (o : Option Bool) (b : Bool) :
    (∀ e, o = some e → (decide (e ≠ b)) = false) ↔ ∀ e, o = some e → b = e := by
  cases o with
  | none => simp
  | some v =>
    simp only [Option.some.injEq, forall_eq']
    rw [decide_eq_false_iff_not, not_ne_iff]
    exact eq_comm

theorem filterByPred_iff (now : Int) (f : IClientFilter) (c : Client) :
    filterByPred now f c = true ↔ SatisfiesAllCriteria now f c := by
  unfold filterByPred SatisfiesAllCriteria
  rw [iteChain_eq]
  simp only [Bool.and_eq_true, Bool.not_eq_true', optCheck_false_iff, and_assoc]
  rw [crit_ne_bool, crit_name_contains, crit_lt_le, crit_gt_le, crit_online,
    crit_lt_le, crit_lt_le]

/-- C7: filterBy has conjunctive (AND) semantics — a record is in the result
exactly when it is in the collection and satisfies all supplied criteria —
and consequently chaining two filterBy calls yields a subset of applying the
first filterBy alone. -/
theorem filterBy_conjunctive_semantics (now : Int) (coll : ClientCollection)
    (hnodup : (coll.toArray.map Client.id).Nodup) :
    (∀ f x, x ∈ (coll.filterBy now f).toArray ↔
        x ∈ coll.toArray ∧ SatisfiesAllCriteria now f x) ∧
    (∀ f g x, x ∈ ((coll.filterBy now f).filterBy now g).toArray →
        x ∈ (coll.filterBy now f).toArray) := by
  constructor
  · intro f x
    rw [ClientCollection.filterBy, mem_filter_toArray _ _ _ hnodup, filterByPred_iff]
  · intro f g x hx
    have h1 := mem_of_mem_mapOfList _ _ hx
    exact (List.mem_filter.mp h1).1

/-- C8: search(query) returns exactly the records for which the query is a
case-insensitive substring of the name, or a case-sensitive substring of the
address, or a case-sensitive substring of the public key. -/
theorem search_members (coll : ClientCollection) (query : String)
    (hnodup : (coll.toArray.map Client.id).Nodup) (x : Client) :
    x ∈ (coll.search query).toArray ↔
      x ∈ coll.toArray ∧
        ((strLower query).data <:+: (strLower x.name).data ∨
         query.data <:+: x.address.data ∨
         query.data <:+: x.publicKey.data) := by
  rw [ClientCollection.search, mem_filter_toArray _ _ _ hnodup]
  simp [jsIncludes, or_assoc]

/-! ### Pagination lemmas -/

theorem paginate_totalPages (coll : ClientCollection) (p L : Nat) :
    (coll.paginate p L).totalPages = (coll.size + L - 1) / L := rfl

theorem paginate_items_length (coll : ClientCollection) (p L : Nat) :
    (coll.paginate p L).items.length = min L (coll.size - (p - 1) * L) := by
  simp [ClientCollection.paginate, ClientCollection.size, ClientCollection.toArray]

theorem ceilDiv_mul_bounds (S L : Nat) (hL : 0 < L) :
    S ≤ ((S + L - 1) / L) * L ∧ ((S + L - 1) / L) * L < S + L := by
  have h1 := Nat.div_add_mod (S + L - 1) L
  have h2 : (S + L - 1) % L < L := Nat.mod_lt _ hL
  rw [Nat.mul_comm]
  generalize (S + L - 1) % L = r at h1 h2
  generalize L * ((S + L - 1) / L) = A at h1 ⊢
  omega

theorem paginate_sum_range (L : Nat) (hL : 0 < L) :
    ∀ S, ∑ i in Finset.range ((S + L - 1) / L), min L (S - i * L) = S := by
  intro S
  induction S using Nat.strong_induction_on with
  | _ S ih =>
    rcases Nat.eq_zero_or_pos S with hS | hS
    · subst hS
      have h0 : (0 + L - 1) / L = 0 := Nat.div_eq_of_lt (by omega)
      simp [h0]
    · have hT : (S + L - 1) / L = (S - L + L - 1) / L + 1 := by
        rcases le_or_lt S L with h | h
        · have hr0 : (S - L + L - 1) / L = 0 := by
            have hz : S - L = 0 := by omega
            rw [hz]
            exact Nat.div_eq_of_lt (by omega)
          have hl1 : (S + L - 1) / L = 1 := by
            have hsplit : S + L - 1 = (S - 1) + L := by omega
            rw [hsplit, Nat.add_div_right _ hL]
            have : (S - 1) / L = 0 := Nat.div_eq_of_lt (by omega)
            omega
          omega
        · have hsplit : S + L - 1 = (S - L + L - 1) + L := by omega
          rw [hsplit, Nat.add_div_right _ hL]
      rw [hT, Finset.sum_range_succ']
      have hstep : ∀ i, S - (i + 1) * L = S - L - i * L := by
        intro i
        rw [Nat.succ_mul]
        generalize i * L = a
        omega
      rw [Finset.sum_congr rfl (fun i _ => by rw [hstep i])]
      rw [ih (S - L) (by omega)]
      rcases le_total L S with h | h
      · rw [Nat.zero_mul, Nat.sub_zero, min_eq_left h]
        omega
      · rw [Nat.zero_mul, Nat.sub_zero, min_eq_right h]
        omega

theorem paginate_sum_Icc (coll : ClientCollection) (L : Nat) (hL : 0 < L) :
    ∑ p in Finset.Icc 1 ((coll.size + L - 1) / L), (coll.paginate p L).items.length
      = coll.size := by
  rw [← Nat.Ico_succ_right, Finset.sum_Ico_eq_sum_range]
  have hterm : ∀ i, (coll.paginate (1 + i) L).items.length = min L (coll.size - i * L) := by
    intro i
    rw [paginate_items_length]
    have hi : 1 + i - 1 = i := by omega
    rw [hi]
  rw [Finset.sum_congr rfl (fun i _ => hterm i)]
  exact paginate_sum_range L hL coll.size

theorem paginate_full_pages (coll : ClientCollection) (L p : Nat) (hL : 0 < L)
    (hp1 : 1 ≤ p) (hpT : p < (coll.size + L - 1) / L) :
    (coll.paginate p L).items.length = L := by
  have hS1 : 1 ≤ coll.size := by
    by_contra h
    have hz : coll.size = 0 := by omega
    rw [hz] at hpT
    have h0 : (0 + L - 1) / L = 0 := Nat.div_eq_of_lt (by omega)
    omega
  have hT : (coll.size + L - 1) / L = (coll.size - 1) / L + 1 := by
    have hsplit : coll.size + L - 1 = (coll.size - 1) + L := by omega
    rw [hsplit, Nat.add_div_right _ hL]
  have hple : p ≤ (coll.size - 1) / L := by omega
  have hmul : p * L ≤ coll.size - 1 :=
    le_trans (Nat.mul_le_mul_right L hple) (Nat.div_mul_le_self _ _)
  have ha : L ≤ p * L := by
    calc L = 1 * L := (Nat.one_mul L).symm
    _ ≤ p * L := Nat.mul_le_mul_right L hp1
  rw [paginate_items_length, Nat.sub_one_mul]
  apply min_eq_left
  generalize p * L = a at hmul ha
  omega

theorem paginate_out_of_range (coll : ClientCollection) (L p : Nat) (hL : 0 < L)
    (hpT : (coll.size + L - 1) / L < p) :
    (coll.paginate p L).items = [] := by
  have h1 : coll.size ≤ ((coll.size + L - 1) / L) * L := (ceilDiv_mul_bounds _ _ hL).1
  have h2 : (coll.size + L - 1) / L ≤ p - 1 := by omega
  have h3 : ((coll.size + L - 1) / L) * L ≤ (p - 1) * L := Nat.mul_le_mul_right L h2
  apply List.eq_nil_of_length_eq_zero
  rw [paginate_items_length]
  rw [Nat.sub_eq_zero_of_le (le_trans h1 h3)]
  exact Nat.min_zero L

/-- C6: pagination law — totalPages is the ceiling of size/limit, items are
the requested slice, hasNext and hasPrev are the page-position flags, page
lengths sum to the snapshot size with only the last page short, and any
out-of-range page yields an empty slice. -/
theorem paginate_spec (coll : ClientCollection) (page limit : Nat)
    (_hpage : 1 ≤ page) (hlimit : 0 < limit) :
    (coll.size ≤ (coll.paginate page limit).totalPages * limit ∧
      (coll.paginate page limit).totalPages * limit < coll.size + limit) ∧
    (coll.paginate page limit).items =
      (coll.toArray.drop ((page - 1) * limit)).take limit ∧
    ((coll.paginate page limit).hasNext = true ↔
      page < (coll.paginate page limit).totalPages) ∧
    ((coll.paginate page limit).hasPrev = true ↔ 1 < page) ∧
    (∑ p in Finset.Icc 1 (coll.paginate page limit).totalPages,
        (coll.paginate p limit).items.length) = coll.size ∧
    (∀ p, 1 ≤ p → p < (coll.paginate page limit).totalPages →
        (coll.paginate p limit).items.length = limit) ∧
    (∀ p, (coll.paginate page limit).totalPages < p →
        (coll.paginate p limit).items = []) := by
  rw [paginate_totalPages]
  refine ⟨ceilDiv_mul_bounds _ _ hlimit, rfl, ?_, ?_, paginate_sum_Icc coll limit hlimit,
    fun p hp1 hpT => paginate_full_pages coll limit p hlimit hp1 hpT,
    fun p hpT => paginate_out_of_range coll limit p hlimit hpT⟩
  · simp [ClientCollection.paginate]
  · simp [ClientCollection.paginate]

/-! ### Retry-loop lemmas -/

theorem requestGo_success {α : Type} (att : Nat → AttemptOutcome α) (R D T : Nat) :
    ∀ n attempt rem lastErr status ra body,
      attempt + rem = R + 1 →
      n < rem →
      (∀ j, attempt ≤ j → j < attempt + n → RetriableB (att j) = true) →
      att (attempt + n) = .resp status ra body →
      200 ≤ status → status < 300 →
      requestGo att R D T attempt rem lastErr =
        ⟨.success ⟨true, body, status⟩,
         D * (∑ j in Finset.Ico attempt (attempt + n), j), n + 1⟩ := by
  intro n
  induction n with
  | zero =>
    intro attempt rem lastErr status ra body hsum hlt hpre hresp h2 h3
    obtain ⟨rem1, rfl⟩ : ∃ rem1, rem = rem1 + 1 := ⟨rem - 1, by omega⟩
    rw [Nat.add_zero] at hresp
    simp only [requestGo]
    rw [hresp]
    simp only [if_neg (by omega : ¬ status = 401), if_neg (by omega : ¬ status = 429),
      if_neg (by omega : ¬ 500 ≤ status)]
    have hdec : decide (200 ≤ status ∧ status < 300) = true := by
      simp only [decide_eq_true_eq]
      exact ⟨h2, h3⟩
    rw [hdec]
    simp
  | succ n ih =>
    intro attempt rem lastErr status ra body hsum hlt hpre hresp h2 h3
    obtain ⟨rem1, rfl⟩ : ∃ rem1, rem = rem1 + 1 := ⟨rem - 1, by omega⟩
    have hfirst : RetriableB (att attempt) = true := hpre attempt le_rfl (by omega)
    have hresp2 : att (attempt + 1 + n) = .resp status ra body := by
      rw [show attempt + 1 + n = attempt + (n + 1) from by omega]
      exact hresp
    have hpre2 : ∀ j, attempt + 1 ≤ j → j < attempt + 1 + n → RetriableB (att j) = true := by
      intro j hj1 hj2
      exact hpre j (by omega) (by omega)
    have hsum2 : attempt + 1 + rem1 = R + 1 := by omega
    have hlt2 : n < rem1 := by omega
    have hdsum : D * (∑ j in Finset.Ico attempt (attempt + (n + 1)), j) =
        D * attempt + D * (∑ j in Finset.Ico (attempt + 1) (attempt + 1 + n), j) := by
      rw [show attempt + (n + 1) = attempt + 1 + n from by omega,
        Finset.sum_eq_sum_Ico_succ_bot (by omega : attempt < attempt + 1 + n), Nat.mul_add]
    cases hatt : att attempt with
    | fetchError =>
      simp only [requestGo]
      rw [hatt]
      simp only [ih (attempt + 1) rem1 (some .fetchFail) status ra body hsum2 hlt2 hpre2
        hresp2 h2 h3]
      rw [if_pos (by omega : attempt < R), hdsum, Nat.add_comm 1 (n + 1)]
    | abortError =>
      rw [hatt] at hfirst
      simp [RetriableB] at hfirst
    | resp s rra bb =>
      rw [hatt] at hfirst
      have hs : 500 ≤ s := by
        simpa [RetriableB] using hfirst
      simp only [requestGo]
      rw [hatt]
      simp only [if_neg (by omega : ¬ s = 401), if_neg (by omega : ¬ s = 429),
        if_pos hs]
      simp only [ih (attempt + 1) rem1 (some (.server s)) status ra body hsum2 hlt2 hpre2
        hresp2 h2 h3]
      rw [if_pos (by omega : attempt < R), hdsum, Nat.add_comm 1 (n + 1)]

theorem requestGo_exhaust {α : Type} (att : Nat → AttemptOutcome α) (R D T : Nat) :
    ∀ rem attempt lastErr,
      attempt + rem = R + 1 →
      1 ≤ rem →
      (∀ j, attempt ≤ j → j ≤ R → RetriableB (att j) = true) →
      requestGo att R D T attempt rem lastErr =
        ⟨.network (some (errOf (att R))),
         D * (∑ j in Finset.Ico attempt R, j), rem⟩ := by
  intro rem
  induction rem with
  | zero => intro attempt lastErr hsum h1 hpre; omega
  | succ rem1 ih =>
    intro attempt lastErr hsum h1 hpre
    have hfirst : RetriableB (att attempt) = true := hpre attempt le_rfl (by omega)
    rcases Nat.eq_zero_or_pos rem1 with hz | hp
    · subst hz
      have hR : attempt = R := by omega
      rw [hR] at hfirst ⊢
      cases hatt : att R with
      | fetchError =>
        simp only [requestGo]
        rw [hatt]
        simp only [requestGo]
        rw [if_neg (by omega : ¬ R < R)]
        simp [errOf]
      | abortError =>
        rw [hatt] at hfirst
        simp [RetriableB] at hfirst
      | resp s rra bb =>
        rw [hatt] at hfirst
        have hs : 500 ≤ s := by simpa [RetriableB] using hfirst
        simp only [requestGo]
        rw [hatt]
        simp only [if_neg (by omega : ¬ s = 401), if_neg (by omega : ¬ s = 429), if_pos hs]
        rw [if_neg (by omega : ¬ R < R)]
        simp [errOf]
    · have hlt : attempt < R := by omega
      have hsum2 : (attempt + 1) + rem1 = R + 1 := by omega
      have hpre2 : ∀ j, attempt + 1 ≤ j → j ≤ R → RetriableB (att j) = true :=
        fun j hj1 hj2 => hpre j (by omega) hj2
      have hdsum : D * (∑ j in Finset.Ico attempt R, j) =
          D * attempt + D * (∑ j in Finset.Ico (attempt + 1) R, j) := by
        rw [Finset.sum_eq_sum_Ico_succ_bot (by omega : attempt < R), Nat.mul_add]
      cases hatt : att attempt with
      | fetchError =>
        simp only [requestGo]
        rw [hatt]
        simp only [ih (attempt + 1) (some .fetchFail) hsum2 hp hpre2]
        rw [if_pos hlt, hdsum, Nat.add_comm 1 rem1]
      | abortError =>
        rw [hatt] at hfirst
        simp [RetriableB] at hfirst
      | resp s rra bb =>
        rw [hatt] at hfirst
        have hs : 500 ≤ s := by simpa [RetriableB] using hfirst
        simp only [requestGo]
        rw [hatt]
        simp only [if_neg (by omega : ¬ s = 401), if_neg (by omega : ¬ s = 429), if_pos hs]
        simp only [ih (attempt + 1) (some (.server s)) hsum2 hp hpre2]
        rw [if_pos hlt, hdsum, Nat.add_comm 1 rem1]

theorem requestGo_timeout {α : Type} (att : Nat → AttemptOutcome α) (R D T : Nat) :
    ∀ n attempt rem lastErr,
      attempt + rem = R + 1 →
      n < rem →
      (∀ j, attempt ≤ j → j < attempt + n → RetriableB (att j) = true) →
      att (attempt + n) = .abortError →
      requestGo att R D T attempt rem lastErr =
        ⟨.timeout T, D * (∑ j in Finset.Ico attempt (attempt + n), j), n + 1⟩ := by
  intro n
  induction n with
  | zero =>
    intro attempt rem lastErr hsum hlt hpre habort
    obtain ⟨rem1, rfl⟩ : ∃ rem1, rem = rem1 + 1 := ⟨rem - 1, by omega⟩
    rw [Nat.add_zero] at habort
    simp only [requestGo]
    rw [habort]
    simp
  | succ n ih =>
    intro attempt rem lastErr hsum hlt hpre habort
    obtain ⟨rem1, rfl⟩ : ∃ rem1, rem = rem1 + 1 := ⟨rem - 1, by omega⟩
    have hfirst : RetriableB (att attempt) = true := hpre attempt le_rfl (by omega)
    have habort2 : att (attempt + 1 + n) = .abortError := by
      rw [show attempt + 1 + n = attempt + (n + 1) from by omega]
      exact habort
    have hpre2 : ∀ j, attempt + 1 ≤ j → j < attempt + 1 + n → RetriableB (att j) = true :=
      fun j hj1 hj2 => hpre j (by omega) (by omega)
    have hsum2 : attempt + 1 + rem1 = R + 1 := by omega
    have hlt2 : n < rem1 := by omega
    have hdsum : D * (∑ j in Finset.Ico attempt (attempt + (n + 1)), j) =
        D * attempt + D * (∑ j in Finset.Ico (attempt + 1) (attempt + 1 + n), j) := by
      rw [show attempt + (n + 1) = attempt + 1 + n from by omega,
        Finset.sum_eq_sum_Ico_succ_bot (by omega : attempt < attempt + 1 + n), Nat.mul_add]
    cases hatt : att attempt with
    | fetchError =>
      simp only [requestGo]
      rw [hatt]
      simp only [ih (attempt + 1) rem1 (some .fetchFail) hsum2 hlt2 hpre2 habort2]
      rw [if_pos (by omega : attempt < R), hdsum, Nat.add_comm 1 (n + 1)]
    | abortError =>
      rw [hatt] at hfirst
      simp [RetriableB] at hfirst
    | resp s rra bb =>
      rw [hatt] at hfirst
      have hs : 500 ≤ s := by simpa [RetriableB] using hfirst
      simp only [requestGo]
      rw [hatt]
      simp only [if_neg (by omega : ¬ s = 401), if_neg (by omega : ¬ s = 429), if_pos hs]
      simp only [ih (attempt + 1) rem1 (some (.server s)) hsum2 hlt2 hpre2 habort2]
      rw [if_pos (by omega : attempt < R), hdsum, Nat.add_comm 1 (n + 1)]

theorem sum_Ico_one_eq_sum_range (n : Nat) :
    (∑ j in Finset.Ico 1 (1 + n), j) = ∑ j in Finset.range (n + 1), j := by
  rw [Finset.range_eq_Ico, show n + 1 = 1 + n from by omega,
    Finset.sum_eq_sum_Ico_succ_bot (by omega : 0 < 1 + n)]
  simp

/-- C3: a 401 response raises UnauthorizedException and a 429 response
raises RateLimitException carrying the retry-after value (default 60) after
exactly one attempt, with no retry and no backoff delay, for every
configured retryAttempts of at least 1. -/
theorem request_noRetry_401_429 {α : Type} (att : Nat → AttemptOutcome α)
    (R D T : Nat) (hR : 1 ≤ R) :
    (∀ ra body, att 1 = .resp 401 ra body →
      HttpClient.request att R D T = ⟨.unauthorized, 0, 1⟩) ∧
    (∀ ra body, att 1 = .resp 429 ra body →
      HttpClient.request att R D T = ⟨.rateLimit (ra.getD 60), 0, 1⟩) := by
  obtain ⟨R1, rfl⟩ : ∃ R1, R = R1 + 1 := ⟨R - 1, by omega⟩
  constructor
  · intro ra body hatt
    unfold HttpClient.request
    simp only [requestGo]
    rw [hatt]
    simp
  · intro ra body hatt
    unfold HttpClient.request
    simp only [requestGo]
    rw [hatt]
    simp

/-- C4 counterexample: with retryAttempts = 3, a timed-out first attempt is
surfaced at once as the final TimeoutException result after a single
attempt — the transport does not proceed to attempt 2 although budget
remains and a 200 awaits there. -/
theorem request_timeout_counterexample :
    HttpClient.request attTimeoutThen200 3 1000 30000 =
      ⟨.timeout 30000, 0, 1⟩ ∧
    attTimeoutThen200 2 = .resp 200 none none := by
  constructor
  · rfl
  · rfl

/-- C4 amended: an attempt exceeding the fixed timeout is aborted and
TimeoutException is surfaced immediately as the final result of the whole
call: when attempt k times out after k-1 retriable failures, the call ends
with the timeout result after exactly k attempts and only the backoff
already paid for the earlier failures — no further attempt is made even
when budget remains. -/
theorem request_timeout_immediate {α : Type} (att : Nat → AttemptOutcome α)
    (R D T k : Nat) (hk1 : 1 ≤ k) (hkR : k ≤ R)
    (hpre : ∀ j, 1 ≤ j → j < k → RetriableB (att j) = true)
    (habort : att k = .abortError) :
    HttpClient.request att R D T =
      ⟨.timeout T, D * (∑ j in Finset.Ico 1 k, j), k⟩ := by
  unfold HttpClient.request
  have h := requestGo_timeout att R D T (k - 1) 1 R none (by omega) (by omega)
    (fun j hj1 hj2 => hpre j hj1 (by omega))
    (by rw [show 1 + (k - 1) = k from by omega]; exact habort)
  rw [show 1 + (k - 1) = k from by omega, show k - 1 + 1 = k from by omega] at h
  exact h

/-- C5: retry law — if the first N attempts fail with retriable transient
errors (5xx or a fetch failure) and attempt N+1 returns 2xx, the call
returns the success payload after cumulative linear backoff
baseDelay * (0 + 1 + 2 + ... + N) in N+1 attempts; if all retryAttempts
attempts fail with retriable errors, the call raises NetworkException
wrapping the last underlying failure. -/
theorem request_retry_law {α : Type} (att : Nat → AttemptOutcome α) (R D T : Nat) :
    (∀ N status ra body, N < R →
      (∀ j, 1 ≤ j → j ≤ N → RetriableB (att j) = true) →
      att (N + 1) = .resp status ra body →
      200 ≤ status → status < 300 →
      HttpClient.request att R D T =
        ⟨.success ⟨true, body, status⟩,
         D * (∑ j in Finset.range (N + 1), j), N + 1⟩) ∧
    (1 ≤ R →
      (∀ j, 1 ≤ j → j ≤ R → RetriableB (att j) = true) →
      HttpClient.request att R D T =
        ⟨.network (some (errOf (att R))),
         D * (∑ j in Finset.range R, j), R⟩) := by
  constructor
  · intro N status ra body hNR hpre hresp h2 h3
    unfold HttpClient.request
    rw [requestGo_success att R D T N 1 R none status ra body (by omega) (by omega)
      (fun j hj1 hj2 => hpre j hj1 (by omega))
      (by rw [Nat.add_comm 1 N]; exact hresp) h2 h3]
    rw [sum_Ico_one_eq_sum_range]
  · intro hR hpre
    unfold HttpClient.request
    rw [requestGo_exhaust att R D T R 1 none (by omega) (by omega)
      (fun j hj1 hj2 => hpre j hj1 hj2)]
    have hsr : (∑ j in Finset.Ico 1 R, j) = ∑ j in Finset.range R, j := by
      have := sum_Ico_one_eq_sum_range (R - 1)
      rw [show 1 + (R - 1) = R from by omega, show R - 1 + 1 = R from by omega] at this
      exact this
    rw [hsr]

/-! ### Repository lemmas -/

theorem isCacheValid_none (ttl : Nat) (now : Int) (ts : Option Int) (n : Nat) :
    isCacheValid ttl now ⟨none, ts, n⟩ = false := by
  unfold isCacheValid
  rfl

theorem findAll_cacheNone_thrown (remote : Remote) (ttl : Nat) (now : Int) (force : Bool)
    (ts : Option Int) (n : Nat) (hrem : remote n = .thrown) :
    ClientRepository.findAll remote ttl now force ⟨none, ts, n⟩ = .error .transport := by
  unfold ClientRepository.findAll
  rw [isCacheValid_none, hrem]
  simp

theorem findAll_cacheNone_usable (remote : Remote) (ttl : Nat) (now : Int) (force : Bool)
    (ts : Option Int) (n : Nat) (d : List Client) (item : Option Client)
    (hrem : remote n = .reply true (some d) item) :
    ClientRepository.findAll remote ttl now force ⟨none, ts, n⟩ =
      .ok (ClientCollection.fromRawData d,
        ⟨some (ClientCollection.fromRawData d), some now, n + 1⟩) := by
  unfold ClientRepository.findAll
  rw [isCacheValid_none, hrem]
  simp

theorem findAll_cacheNone_bad (remote : Remote) (ttl : Nat) (now : Int) (force : Bool)
    (ts : Option Int) (n : Nat) (success : Bool) (list : Option (List Client))
    (item : Option Client) (hrem : remote n = .reply success list item)
    (hbad : ¬ (success = true ∧ list.isSome = true)) :
    ClientRepository.findAll remote ttl now force ⟨none, ts, n⟩ =
      .ok (⟨[]⟩, ⟨none, ts, n + 1⟩) := by
  unfold ClientRepository.findAll
  rw [isCacheValid_none, hrem]
  cases success <;> cases list <;> simp_all

theorem findAll_next_read (remote : Remote) (ttl : Nat) (lo : Nat) (s2 : RepoState)
    (hcache : s2.cache = none ∨
      ∃ C, s2.cache = some C ∧ FetchedDuring remote lo s2.calls C)
    (hlo : lo ≤ s2.calls) :
    ∀ now2 force C s3, ClientRepository.findAll remote ttl now2 force s2 = .ok (C, s3) →
      FetchedDuring remote lo s3.calls C ∨ C = ⟨[]⟩ := by
  intro now2 force C s3 hfa
  unfold ClientRepository.findAll at hfa
  by_cases hb : (!force && isCacheValid ttl now2 s2) = true
  · rw [if_pos hb] at hfa
    simp only [Except.ok.injEq, Prod.mk.injEq] at hfa
    obtain ⟨hC, hs3⟩ := hfa
    cases hcache with
    | inl hnone =>
      exfalso
      obtain ⟨s2c, s2t, s2n⟩ := s2
      simp only at hnone
      subst hnone
      rw [isCacheValid_none] at hb
      simp at hb
    | inr h =>
      obtain ⟨C0, hC0, hfd⟩ := h
      left
      rw [hC0] at hC
      simp only [Option.getD_some] at hC
      rw [← hs3, ← hC]
      exact hfd
  · rw [if_neg hb] at hfa
    cases hrem : remote s2.calls with
    | thrown =>
      rw [hrem] at hfa
      simp at hfa
    | reply success list item =>
      rw [hrem] at hfa
      cases success with
      | true =>
        cases list with
        | some d =>
          simp only [Except.ok.injEq, Prod.mk.injEq] at hfa
          obtain ⟨hC, hs3⟩ := hfa
          left
          refine ⟨s2.calls, hlo, ?_, d, item, hrem, hC.symm⟩
          rw [← hs3]
          exact Nat.lt_succ_self _
        | none =>
          simp only [Except.ok.injEq, Prod.mk.injEq] at hfa
          exact Or.inr hfa.1.symm
      | false =>
        simp only [Except.ok.injEq, Prod.mk.injEq] at hfa
        exact Or.inr hfa.1.symm

theorem delete_coherent (remote : Remote) (ttl : Nat) (id : String) (s : RepoState)
    (u : Unit) (s2 : RepoState)
    (h : ClientRepository.delete remote id s = .ok (u, s2)) :
    MutationCoherent remote ttl s s2 := by
  unfold ClientRepository.delete at h
  split at h
  · simp at h
  · cases hrem : remote s.calls with
    | thrown =>
      rw [hrem] at h
      simp at h
    | reply success list item =>
      rw [hrem] at h
      simp only [Except.ok.injEq, Prod.mk.injEq] at h
      obtain ⟨-, hs2⟩ := h
      subst hs2
      exact ⟨Nat.lt_succ_self _, Or.inl rfl,
        findAll_next_read remote ttl s.calls _ (Or.inl rfl) (Nat.le_succ _)⟩

theorem findById_fallback_coherent (remote : Remote) (ttl : Nat) (now : Int) (id : String)
    (s : RepoState) (c : Client) (s2 : RepoState)
    (h : ClientRepository.findById remote ttl now id
      { cache := none, cacheTimestamp := none, calls := s.calls + 1 } = .ok (c, s2)) :
    MutationCoherent remote ttl s s2 := by
  unfold ClientRepository.findById at h
  split at h
  · simp at h
  · cases hrem2 : remote (s.calls + 1) with
    | thrown =>
      rw [findAll_cacheNone_thrown remote ttl now false none (s.calls + 1) hrem2] at h
      simp at h
    | reply succ2 list2 item2 =>
      by_cases hgood : succ2 = true ∧ list2.isSome = true
      · obtain ⟨rfl, hls⟩ := hgood
        obtain ⟨d, rfl⟩ := Option.isSome_iff_exists.mp hls
        rw [findAll_cacheNone_usable remote ttl now false none (s.calls + 1) d item2
          hrem2] at h
        split at h
        case _ e1 heq1 => exact Except.noConfusion heq1
        rename_i clients1 st1 heq
        simp only [Except.ok.injEq, Prod.mk.injEq] at heq
        obtain ⟨hcl, hst⟩ := heq
        subst hcl
        subst hst
        split at h
        · simp at h
        · simp only [Except.ok.injEq, Prod.mk.injEq] at h
          obtain ⟨-, hs2⟩ := h
          subst hs2
          have hfd : FetchedDuring remote s.calls (s.calls + 1 + 1)
              (ClientCollection.fromRawData d) :=
            ⟨s.calls + 1, Nat.le_succ _, by omega, d, item2, hrem2, rfl⟩
          refine ⟨?_, Or.inr ⟨_, rfl, hfd⟩,
            findAll_next_read remote ttl s.calls _ (Or.inr ⟨_, rfl, hfd⟩) ?_⟩
          · show s.calls < s.calls + 1 + 1
            omega
          · show s.calls ≤ s.calls + 1 + 1
            omega
      · rw [findAll_cacheNone_bad remote ttl now false none (s.calls + 1) succ2 list2
          item2 hrem2 hgood] at h
        split at h
        case _ e1 heq1 => exact Except.noConfusion heq1
        rename_i clients1 st1 heq
        simp only [Except.ok.injEq, Prod.mk.injEq] at heq
        obtain ⟨hcl, hst⟩ := heq
        subst hcl
        subst hst
        split at h
        · simp at h
        · rename_i c1 hget
          simp only [ClientCollection.get, List.find?] at hget
          cases hget

theorem updateCommon_coherent (remote : Remote) (ttl : Nat) (now : Int) (id : String)
    (s : RepoState) (c : Client) (s2 : RepoState)
    (h : updateCommon remote ttl now id s = .ok (c, s2)) :
    MutationCoherent remote ttl s s2 := by
  unfold updateCommon at h
  split at h
  · simp at h
  · rename_i success list item hrem
    split at h
    · simp only [Except.ok.injEq, Prod.mk.injEq] at h
      obtain ⟨-, hs2⟩ := h
      subst hs2
      exact ⟨Nat.lt_succ_self _, Or.inl rfl,
        findAll_next_read remote ttl s.calls _ (Or.inl rfl) (Nat.le_succ _)⟩
    · exact findById_fallback_coherent remote ttl now id s c s2 h

theorem create_unfold_usable (remote : Remote) (ttl : Nat) (now : Int) (name : String)
    (s : RepoState) (l0 : Option (List Client)) (i0 : Option Client)
    (d : List Client) (item0 : Option Client)
    (hname : validClientName name = true)
    (hpost : remote s.calls = .reply true l0 i0)
    (hfetch : remote (s.calls + 1) = .reply true (some d) item0) :
    ClientRepository.create remote ttl now name s =
      match (ClientCollection.fromRawData d).toArray.reverse.find?
          (fun c => decide (strLower c.name = strLower name)) with
      | none => .error (.createdNotFound name)
      | some c =>
        .ok (c, ⟨some (ClientCollection.fromRawData d), some now, s.calls + 1 + 1⟩) := by
  unfold ClientRepository.create
  rw [hname, hpost,
    findAll_cacheNone_usable remote ttl now true none (s.calls + 1) d item0 hfetch]
  rfl

theorem create_coherent (remote : Remote) (ttl : Nat) (now : Int) (name : String)
    (s : RepoState) (c : Client) (s2 : RepoState)
    (h : ClientRepository.create remote ttl now name s = .ok (c, s2)) :
    MutationCoherent remote ttl s s2 := by
  unfold ClientRepository.create at h
  split at h
  · simp at h
  · split at h
    · simp at h
    · rename_i success l0 i0 hrem
      split at h
      · simp at h
      · rename_i hsucc
        have hsucc2 : success = true := by
          cases success
          · simp at hsucc
          · rfl
        subst hsucc2
        cases hrem2 : remote (s.calls + 1) with
        | thrown =>
          rw [findAll_cacheNone_thrown remote ttl now true none (s.calls + 1) hrem2] at h
          simp at h
        | reply succ2 list2 item2 =>
          by_cases hgood : succ2 = true ∧ list2.isSome = true
          · obtain ⟨rfl, hls⟩ := hgood
            obtain ⟨d, rfl⟩ := Option.isSome_iff_exists.mp hls
            rw [findAll_cacheNone_usable remote ttl now true none (s.calls + 1) d item2
              hrem2] at h
            split at h
            case _ e1 heq1 => exact Except.noConfusion heq1
            rename_i clients1 st1 heq
            simp only [Except.ok.injEq, Prod.mk.injEq] at heq
            obtain ⟨hcl, hst⟩ := heq
            subst hcl
            subst hst
            split at h
            · simp at h
            · simp only [Except.ok.injEq, Prod.mk.injEq] at h
              obtain ⟨-, hs2⟩ := h
              subst hs2
              have hfd : FetchedDuring remote s.calls (s.calls + 1 + 1)
                  (ClientCollection.fromRawData d) :=
                ⟨s.calls + 1, Nat.le_succ _, by omega, d, item2, hrem2, rfl⟩
              refine ⟨?_, Or.inr ⟨_, rfl, hfd⟩,
                findAll_next_read remote ttl s.calls _ (Or.inr ⟨_, rfl, hfd⟩) ?_⟩
              · show s.calls < s.calls + 1 + 1
                omega
              · show s.calls ≤ s.calls + 1 + 1
                omega
          · rw [findAll_cacheNone_bad remote ttl now true none (s.calls + 1) succ2 list2
              item2 hrem2 hgood] at h
            split at h
            case _ e1 heq1 => exact Except.noConfusion heq1
            rename_i clients1 st1 heq
            simp only [Except.ok.injEq, Prod.mk.injEq] at heq
            obtain ⟨hcl, hst⟩ := heq
            subst hcl
            subst hst
            split at h
            · simp at h
            · rename_i c1 hget
              simp only [ClientCollection.toArray, List.reverse_nil, List.find?] at hget
              cases hget

/-- C2: when the remote POST of create(dto) reports success, the repository
forces a full refetch (advancing to a second remote call and caching its
snapshot) and returns the record found by scanning the refetched snapshot
from the end backward for a case-insensitive exact match on the requested
name; when no record of that name exists in the refetched snapshot, create
raises the created-record-not-found error even though the POST succeeded. -/
theorem create_spec (remote : Remote) (ttl : Nat) (now : Int) (name : String)
    (s : RepoState) (l0 : Option (List Client)) (i0 : Option Client)
    (d : List Client) (item0 : Option Client)
    (hname : validClientName name = true)
    (hpost : remote s.calls = .reply true l0 i0)
    (hfetch : remote (s.calls + 1) = .reply true (some d) item0) :
    (∀ c, (ClientCollection.fromRawData d).toArray.reverse.find?
        (fun x => decide (strLower x.name = strLower name)) = some c →
      ClientRepository.create remote ttl now name s =
        .ok (c, ⟨some (ClientCollection.fromRawData d), some now, s.calls + 1 + 1⟩)) ∧
    ((ClientCollection.fromRawData d).toArray.reverse.find?
        (fun x => decide (strLower x.name = strLower name)) = none →
      ClientRepository.create remote ttl now name s =
        .error (.createdNotFound name)) := by
  have hu := create_unfold_usable remote ttl now name s l0 i0 d item0 hname hpost hfetch
  constructor
  · intro c hc
    rw [hu, hc]
  · intro hc
    rw [hu, hc]

/-- C1 amended: every mutating operation whose remote call resolves and
whose own internal reads succeed yields a post-state that is coherent for
read-after-write: the pre-mutation cache never survives — afterwards the
cache is either empty (so the next findAll refetches) or a snapshot the
mutation itself fetched from the remote after its remote call (create's
forced refetch; the update operations' findById fallback) — and the next
findAll returns either data fetched at-or-after the mutation began or the
empty collection of a failed refetch, never the pre-mutation snapshot. -/
theorem mutations_read_after_write (remote : Remote) (ttl : Nat) (now : Int) (s : RepoState) :
    (∀ name c s2, ClientRepository.create remote ttl now name s = .ok (c, s2) →
      MutationCoherent remote ttl s s2) ∧
    (∀ id u s2, ClientRepository.delete remote id s = .ok (u, s2) →
      MutationCoherent remote ttl s s2) ∧
    (∀ id name c s2, ClientRepository.updateName remote ttl now id name s = .ok (c, s2) →
      MutationCoherent remote ttl s s2) ∧
    (∀ id address c s2,
      ClientRepository.updateAddress remote ttl now id address s = .ok (c, s2) →
      MutationCoherent remote ttl s s2) ∧
    (∀ id c s2, ClientRepository.enable remote ttl now id s = .ok (c, s2) →
      MutationCoherent remote ttl s s2) ∧
    (∀ id c s2, ClientRepository.disable remote ttl now id s = .ok (c, s2) →
      MutationCoherent remote ttl s s2) := by
  refine ⟨fun name c s2 h => create_coherent remote ttl now name s c s2 h,
    fun id u s2 h => delete_coherent remote ttl id s u s2 h, ?_, ?_, ?_, ?_⟩
  · intro id name c s2 h
    unfold ClientRepository.updateName at h
    split at h
    · simp at h
    · split at h
      · simp at h
      · exact updateCommon_coherent remote ttl now id s c s2 h
  · intro id address c s2 h
    unfold ClientRepository.updateAddress at h
    split at h
    · simp at h
    · split at h
      · simp at h
      · exact updateCommon_coherent remote ttl now id s c s2 h
  · intro id c s2 h
    unfold ClientRepository.enable at h
    split at h
    · simp at h
    · exact updateCommon_coherent remote ttl now id s c s2 h
  · intro id c s2 h
    unfold ClientRepository.disable at h
    split at h
    · simp at h
    · exact updateCommon_coherent remote ttl now id s c s2 h

/-- C10: when the fetch behind findAll resolves with a non-success flag or
without a usable body, findAll returns an empty collection without raising
and leaves the cache and its timestamp untouched; consequently a findById
for any valid id in that situation raises ClientNotFoundException rather
than a transport-level error. -/
theorem findAll_unusable_empty (remote : Remote) (ttl : Nat) (now : Int) (s : RepoState)
    (success : Bool) (list : Option (List Client)) (item : Option Client)
    (hrem : remote s.calls = .reply success list item)
    (hbad : ¬ (success = true ∧ list.isSome = true)) :
    (∀ force, (force = true ∨ isCacheValid ttl now s = false) →
      ClientRepository.findAll remote ttl now force s =
        .ok (⟨[]⟩, { s with calls := s.calls + 1 })) ∧
    (isCacheValid ttl now s = false →
      ∀ id, validId id = true →
        ClientRepository.findById remote ttl now id s = .error (.clientNotFound id)) := by
  have hfa : ∀ force, (force = true ∨ isCacheValid ttl now s = false) →
      ClientRepository.findAll remote ttl now force s =
        .ok (⟨[]⟩, { s with calls := s.calls + 1 }) := by
    intro force hforce
    unfold ClientRepository.findAll
    have hcond : (!force && isCacheValid ttl now s) = false := by
      rcases hforce with rfl | hcv
      · simp
      · simp [hcv]
    rw [hcond]
    simp only [Bool.false_eq_true, if_false]
    rw [hrem]
    cases success <;> cases list <;> simp_all
  refine ⟨hfa, ?_⟩
  intro hcv id hid
  unfold ClientRepository.findById
  rw [hid]
  simp only [Bool.not_true, Bool.false_eq_true, if_false]
  rw [hfa false (Or.inr hcv)]
  rfl

theorem emitGo_spec (behavior : HandlerId → HandlerOutcome) (l : List HandlerId) :
    (emitGo behavior l).invoked = l ∧
    (emitGo behavior l).logged = l.filter (fun h => decide (behavior h = .throws)) := by
  induction l with
  | nil => exact ⟨rfl, rfl⟩
  | cons h rest ih =>
    cases hb : behavior h with
    | ok => simp [emitGo, tryHandler, hb, ih.1, ih.2, List.filter]
    | throws => simp [emitGo, tryHandler, hb, ih.1, ih.2, List.filter]

/-- C9: emit invokes every handler registered for the emitted kind, in
order, and every exception a handler throws is caught and logged rather
than propagated — a throwing handler neither aborts the emitting call nor
prevents the remaining handlers from being invoked. -/
theorem emit_invokes_all (behavior : HandlerId → HandlerOutcome)
    (handlers : HandlerRegistry) (ev : EventType) :
    (EventEmitter.emit behavior handlers ev).invoked = handlers ev ∧
    (EventEmitter.emit behavior handlers ev).logged =
      (handlers ev).filter (fun h => decide (behavior h = .throws)) := by
  unfold EventEmitter.emit
  exact emitGo_spec behavior (handlers ev)

/-! ### Counterexample and witnesses -/

/-- C1 counterexample to the claim as stated: after a successful create the
cache is not left invalidated — create's internal forced refetch repopulated
it — so the next findAll is served from the cache with its state (including
the remote-call counter) unchanged, i.e. it is not a refetch from the remote
service. -/
theorem create_next_read_not_refetch_counterexample :
    ClientRepository.create remoteCreateOk 5000 0 "dev-1" ⟨none, none, 0⟩ =
      .ok (devClient, ⟨some (ClientCollection.fromRawData [devClient]), some 0, 2⟩) ∧
    (⟨some (ClientCollection.fromRawData [devClient]), some 0, 2⟩ : RepoState).cache ≠
      none ∧
    ClientRepository.findAll remoteCreateOk 5000 0 false
        ⟨some (ClientCollection.fromRawData [devClient]), some 0, 2⟩ =
      .ok (ClientCollection.fromRawData [devClient],
        ⟨some (ClientCollection.fromRawData [devClient]), some 0, 2⟩) := by
  refine ⟨?_, by simp, ?_⟩
  · rfl
  · rfl

/-- Witness for the C1 amended theorem at a concrete delete. -/
theorem mutations_read_after_write_witness :
    ClientRepository.delete remoteCreateOk "c1" ⟨none, none, 0⟩ =
      .ok ((), ⟨none, none, 1⟩) ∧
    MutationCoherent remoteCreateOk 5000 ⟨none, none, 0⟩ ⟨none, none, 1⟩ :=
  ⟨rfl, (mutations_read_after_write remoteCreateOk 5000 0 ⟨none, none, 0⟩).2.1 "c1" ()
    ⟨none, none, 1⟩ rfl⟩

/-- Witness for C2 at a concrete create. -/
theorem create_spec_witness :
    validClientName "dev-1" = true ∧
    ClientRepository.create remoteCreateOk 5000 0 "dev-1" ⟨none, none, 0⟩ =
      .ok (devClient, ⟨some (ClientCollection.fromRawData [devClient]), some 0, 2⟩) :=
  ⟨by decide, (create_spec remoteCreateOk 5000 0 "dev-1" ⟨none, none, 0⟩ none none
    [devClient] none (by decide) rfl rfl).1 devClient (by decide)⟩

/-- Witness for C3 at concrete 401 and 429 first attempts. -/
theorem request_noRetry_401_429_witness :
    HttpClient.request att401 3 1000 30000 = ⟨.unauthorized, 0, 1⟩ ∧
    HttpClient.request att429 3 1000 30000 = ⟨.rateLimit 120, 0, 1⟩ :=
  ⟨(request_noRetry_401_429 att401 3 1000 30000 (by decide)).1 none none rfl,
   (request_noRetry_401_429 att429 3 1000 30000 (by decide)).2 (some 120) none rfl⟩

/-- Witness for the C4 amended theorem at a concrete first-attempt
timeout. -/
theorem request_timeout_immediate_witness :
    HttpClient.request attTimeoutThen200 3 1000 30000 =
      ⟨.timeout 30000, 1000 * (∑ j in Finset.Ico 1 1, j), 1⟩ :=
  request_timeout_immediate attTimeoutThen200 3 1000 30000 1 (by decide) (by decide)
    (fun j hj1 hj2 => (by omega : False).elim) rfl

/-- Witness for C5 at a concrete 500-500-200 run. -/
theorem request_retry_law_witness :
    HttpClient.request att5xxThen200 3 1000 30000 =
      ⟨.success ⟨true, some (), 200⟩, 1000 * (∑ j in Finset.range 3, j), 3⟩ :=
  (request_retry_law att5xxThen200 3 1000 30000).1 2 200 none (some ()) (by decide)
    (fun j hj1 hj2 => by
      unfold att5xxThen200
      rw [if_pos hj2]
      rfl)
    rfl (by decide) (by decide)

/-- Witness for C6 on a concrete three-record collection. -/
theorem paginate_spec_witness :
    1 ≤ 1 ∧ 0 < 2 ∧ (collW.paginate 1 2).items.length = 2 :=
  ⟨by decide, by decide,
    (paginate_spec collW 1 2 (by decide) (by decide)).2.2.2.2.2.1 1 (by decide) (by decide)⟩

/-- Witness for C7 on a concrete collection and filter. -/
theorem filterBy_conjunctive_witness :
    (collW.toArray.map Client.id).Nodup ∧
    (devClient ∈ (collW.filterBy 0 filterW).toArray ↔
      devClient ∈ collW.toArray ∧ SatisfiesAllCriteria 0 filterW devClient) :=
  ⟨by decide, (filterBy_conjunctive_semantics 0 collW (by decide)).1 filterW devClient⟩

/-- Witness for C8 on a concrete collection and query. -/
theorem search_members_witness :
    (collW.toArray.map Client.id).Nodup ∧
    devClient ∈ (collW.search "dev").toArray :=
  ⟨by decide, (search_members collW "dev" (by decide) devClient).mpr (by decide)⟩

/-- Witness for C10 at a concrete failing fetch. -/
theorem findAll_unusable_witness :
    ClientRepository.findAll remoteFail 5000 0 false ⟨none, none, 0⟩ =
      .ok (⟨[]⟩, ⟨none, none, 1⟩) ∧
    ClientRepository.findById remoteFail 5000 0 "c1" ⟨none, none, 0⟩ =
      .error (.clientNotFound "c1") :=
  ⟨(findAll_unusable_empty remoteFail 5000 0 ⟨none, none, 0⟩ false none none rfl
      (by decide)).1 false (Or.inr rfl),
   (findAll_unusable_empty remoteFail 5000 0 ⟨none, none, 0⟩ false none none rfl
      (by decide)).2 rfl "c1" (by decide)⟩
